import Mathlib

/-!
Verification development for the `restful.py` command-line HTTP client.

The program is embedded shallowly: each Python function that the claims
touch becomes a Lean definition over explicit data (strings as `List Char`
where character-level behaviour matters, machine-level side effects as
explicit result structures).  Library calls (`json`, `requests`, `pandas`,
`argparse`) are modelled at the level their documented behaviour prescribes;
every such modelling choice is recorded in the corresponding doc comment.
-/

namespace Restful

/-! ## Scalar JSON values

`pandas.read_json` turns a JSON array of records into a tabular structure
whose cells are scalars.  The model restricts record fields to scalars
(numbers, strings, booleans, null); nested values are outside the model and
make the modelled parse fail. Numbers are modelled as integers. -/

/-- A scalar JSON value: one cell of the tabular data the Writer handles. -/
inductive JVal where
  | jnum (n : Int)
  | jstr (s : String)
  | jbool (b : Bool)
  | jnull
deriving DecidableEq

/-- One JSON record: an ordered association list from field name to scalar. -/
abbrev Record := List (String × JVal)

/-! ## Decimal digit printing

Python's `str(...)` on a non-negative integer, used by
`print(f"status_code: {response.status_code}")` and by the leading-digit
check `str(response.status_code)[0]`.  Implemented with explicit fuel so
that every definition reduces inside the kernel. -/

/-- The decimal digit character for `d % 10`. -/
def digitChar : Nat → Char
  | 0 => '0' | 1 => '1' | 2 => '2' | 3 => '3' | 4 => '4'
  | 5 => '5' | 6 => '6' | 7 => '7' | 8 => '8' | _ => '9'

/-- Decimal digits of `n`, least significant first (`fuel` bounds recursion
depth; `n + 1` is always enough). -/
def natToRevDigitsF : Nat → Nat → List Char
  | 0, _ => []
  | f + 1, n => if n = 0 then [] else digitChar (n % 10) :: natToRevDigitsF f (n / 10)

/-- Decimal representation of a natural number, most significant digit first:
the model of Python `str(n)` for `n : Nat`. -/
def natToChars (n : Nat) : List Char :=
  if n = 0 then ['0'] else (natToRevDigitsF (n + 1) n).reverse

/-- Decimal representation of an integer (model of Python `str(n)` and of the
JSON serialization of an integer). -/
def intToChars : Int → List Char
  | .ofNat n => natToChars n
  | .negSucc m => '-' :: natToChars (m + 1)

/-! ## JSON lexing

A token-level model of the lexer shared by `json.loads` and
`pandas.read_json`.  Whitespace is skipped; strings support the `\"` and
`\\` escapes (plus `\n`, `\t`, `\r`); numbers are decimal integers. -/

/-- A JSON token. -/
inductive Tok where
  | lbrack | rbrack | lbrace | rbrace | comma | colon
  | str (s : String)
  | num (n : Int)
  | bool (b : Bool)
  | null
deriving DecidableEq

/-- Resolve one backslash escape inside a JSON string literal. -/
def unescChar (c : Char) : Char :=
  if c = 'n' then '\n' else if c = 't' then '\t' else if c = 'r' then '\r' else c

/-- Consume a string literal body; the flag records whether the previous
character was an unconsumed backslash. -/
def lexStrB : Bool → List Char → Option (List Char × List Char)
  | _, [] => none
  | true, e :: rest => (lexStrB false rest).map (fun p => (unescChar e :: p.1, p.2))
  | false, c :: rest =>
    if c = '"' then some ([], rest)
    else if c = '\\' then lexStrB true rest
    else (lexStrB false rest).map (fun p => (c :: p.1, p.2))

/-- Consume a string literal body (the opening quote already consumed),
returning the content characters and the unconsumed tail. -/
def lexStr : List Char → Option (List Char × List Char) :=
  lexStrB false

/-- Take the longest prefix of decimal digit characters. -/
def takeDigits : List Char → List Char × List Char
  | [] => ([], [])
  | c :: rest =>
    if c.isDigit then
      let p := takeDigits rest
      (c :: p.1, p.2)
    else ([], c :: rest)

/-- Value of a most-significant-first digit string. -/
def digitsVal (ds : List Char) : Nat :=
  ds.foldl (fun a c => 10 * a + (c.toNat - 48)) 0

/-- Whether the first character is a decimal digit. -/
def headIsDigit : List Char → Bool
  | [] => false
  | c :: _ => c.isDigit

/-- Strip an expected literal character sequence off the front of the
input, returning the tail on success. -/
def stripChars : List Char → List Char → Option (List Char)
  | [], l => some l
  | _ :: _, [] => none
  | p :: ps, c :: cs => if c = p then stripChars ps cs else none

/-- Fueled JSON tokenizer (`fuel = length + 1` always suffices: every step
consumes at least one character). -/
def tokenizeF : Nat → List Char → Option (List Tok)
  | 0, _ => none
  | _ + 1, [] => some []
  | f + 1, c :: rest =>
    if c.isDigit then
      let p := takeDigits rest
      (tokenizeF f p.2).map (fun ts => .num ((digitsVal (c :: p.1) : Nat) : Int) :: ts)
    else if c = '-' then
      let p := takeDigits rest
      if p.1.isEmpty then none
      else (tokenizeF f p.2).map (fun ts => .num (-(digitsVal p.1 : Nat) : Int) :: ts)
    else if c = '"' then
      match lexStr rest with
      | none => none
      | some (s, r) => (tokenizeF f r).map (fun ts => .str (String.mk s) :: ts)
    else if c = ' ' ∨ c = '\n' ∨ c = '\t' ∨ c = '\r' then tokenizeF f rest
    else if c = '[' then (tokenizeF f rest).map (fun ts => .lbrack :: ts)
    else if c = ']' then (tokenizeF f rest).map (fun ts => .rbrack :: ts)
    else if c = '{' then (tokenizeF f rest).map (fun ts => .lbrace :: ts)
    else if c = '}' then (tokenizeF f rest).map (fun ts => .rbrace :: ts)
    else if c = ',' then (tokenizeF f rest).map (fun ts => .comma :: ts)
    else if c = ':' then (tokenizeF f rest).map (fun ts => .colon :: ts)
    else if c = 't' then
      match stripChars ['r', 'u', 'e'] rest with
      | some r => (tokenizeF f r).map (fun ts => .bool true :: ts)
      | none => none
    else if c = 'f' then
      match stripChars ['a', 'l', 's', 'e'] rest with
      | some r => (tokenizeF f r).map (fun ts => .bool false :: ts)
      | none => none
    else if c = 'n' then
      match stripChars ['u', 'l', 'l'] rest with
      | some r => (tokenizeF f r).map (fun ts => .null :: ts)
      | none => none
    else none

/-- JSON tokenizer. -/
def tokenize (l : List Char) : Option (List Tok) :=
  tokenizeF (l.length + 1) l

/-! ## Parsing an array of records

Model of `pandas.read_json` on the happy path of this program: the response
text must be a JSON array of flat records with scalar fields.  Any other
JSON shape (nested values, floats, top-level non-arrays) is outside the
model and parses to `none`. -/

/-- The scalar value of a single token, if it is one. -/
def scalarOfTok : Tok → Option JVal
  | .num n => some (.jnum n)
  | .str s => some (.jstr s)
  | .bool b => some (.jbool b)
  | .null => some (.jnull)
  | _ => none

/-- Parse the members of a non-empty JSON object (opening brace already
consumed) up to and including the closing brace. -/
def parseMembers : List Tok → Option (Record × List Tok)
  | .str k :: .colon :: t :: .comma :: rest =>
    match scalarOfTok t, parseMembers rest with
    | some v, some (kvs, r) => some ((k, v) :: kvs, r)
    | _, _ => none
  | .str k :: .colon :: t :: .rbrace :: rest =>
    match scalarOfTok t with
    | some v => some ([(k, v)], rest)
    | none => none
  | _ => none

/-- Parse one JSON object of scalars. -/
def parseObj : List Tok → Option (Record × List Tok)
  | .lbrace :: rest =>
    match rest with
    | .rbrace :: rest2 => some (([] : Record), rest2)
    | _ => parseMembers rest
  | _ => none

/-- Parse the elements of a JSON array of records (opening bracket already
consumed) up to and including the closing bracket.  Fueled; each step
consumes at least one token, so `length + 1` fuel suffices. -/
def parseRecsF : Nat → List Tok → Option (List Record × List Tok)
  | 0, _ => none
  | f + 1, toks =>
    match parseObj toks with
    | some (r, rest) =>
      match rest with
      | .comma :: rest2 =>
        match parseRecsF f rest2 with
        | some (rs, rest3) => if rs.isEmpty then none else some (r :: rs, rest3)
        | none => none
      | .rbrack :: rest2 => some ([r], rest2)
      | _ => none
    | none =>
      match toks with
      | .rbrack :: rest => some ([], rest)
      | _ => none

/-- Model of `pandas.read_json(StringIO(res_text))` restricted to a JSON
array of flat records with scalar fields (`restful.py` line 56); the records
are produced in order.  Any other input makes the call raise, modelled as
`none`.  Not modelled: `read_json`'s post-parse conversions — the default
date conversion of date-like-named columns (`keep_default_dates`), the
numeric coercion of numeric-looking string columns, and the float64
coercion of numeric columns containing missing values.  The round-trip
theorem therefore carries hypotheses (`dateLikeCol`, `plainKey`,
`i64NumCell`, no missing fields) confining it to inputs on which these
conversions are identities, and the heterogeneous-array counterexample
uses string cells, which the conversions leave untouched. -/
def parseRecords (s : String) : Option (List Record) :=
  match tokenize s.toList with
  | some (.lbrack :: rest) =>
    match parseRecsF (rest.length + 1) rest with
    | some (recs, []) => some recs
    | _ => none
  | _ => none

/-! ## General JSON values and `json.loads`

`APITester.post` decodes the `-d` argument with `json.loads`, which accepts
arbitrarily nested JSON. -/

/-- A decoded Python value as produced by `json.loads`. -/
inductive PyVal where
  | num (n : Int)
  | str (s : String)
  | bool (b : Bool)
  | none_
  | list (xs : List PyVal)
  | dict (kvs : List (String × PyVal))

mutual

/-- Fueled parser for one JSON value over the token stream (nesting and
sequence recursion both consume fuel; `2 * length + 2` always suffices). -/
def parseValF : Nat → List Tok → Option (PyVal × List Tok)
  | 0, _ => none
  | f + 1, toks =>
    match toks with
    | .num n :: rest => some (.num n, rest)
    | .str s :: rest => some (.str s, rest)
    | .bool b :: rest => some (.bool b, rest)
    | .null :: rest => some (.none_, rest)
    | .lbrack :: .rbrack :: rest => some (.list [], rest)
    | .lbrack :: rest =>
      (parseElemsF f rest).map (fun p => (.list p.1, p.2))
    | .lbrace :: .rbrace :: rest => some (.dict [], rest)
    | .lbrace :: rest =>
      (parseMemsF f rest).map (fun p => (.dict p.1, p.2))
    | _ => none

/-- Fueled parser for the elements of a non-empty JSON array, up to and
including the closing bracket. -/
def parseElemsF : Nat → List Tok → Option (List PyVal × List Tok)
  | 0, _ => none
  | f + 1, toks =>
    match parseValF f toks with
    | none => none
    | some (v, rest) =>
      match rest with
      | .comma :: rest2 => (parseElemsF f rest2).map (fun p => (v :: p.1, p.2))
      | .rbrack :: rest2 => some ([v], rest2)
      | _ => none

/-- Fueled parser for the members of a non-empty JSON object, up to and
including the closing brace. -/
def parseMemsF : Nat → List Tok → Option (List (String × PyVal) × List Tok)
  | 0, _ => none
  | f + 1, toks =>
    match toks with
    | .str k :: .colon :: rest =>
      match parseValF f rest with
      | none => none
      | some (v, rest2) =>
        match rest2 with
        | .comma :: rest3 => (parseMemsF f rest3).map (fun p => ((k, v) :: p.1, p.2))
        | .rbrace :: rest3 => some ([(k, v)], rest3)
        | _ => none
    | _ => none
end

/-- Model of `json.loads` on a string (`restful.py` line 150): tokenize, then
parse exactly one JSON value consuming the whole input.  Syntactically invalid
input yields `none` (a `json.JSONDecodeError` in Python). -/
def loads (s : String) : Option PyVal :=
  match tokenize s.toList with
  | none => none
  | some toks =>
    match parseValF (2 * toks.length + 2) toks with
    | some (v, []) => some v
    | _ => none

/-! ## The tabular structure and its serializers

`pandas.read_json` normalizes an array of records to a `DataFrame`: the
columns are the union of the record keys in first-seen order, and every row
has a cell for every column, with `NaN` (serialized back as `null`) for a
key the record lacks.  `DataFrame.to_json(orient='records', indent=2)`
re-serializes the rows with pandas' vendored ujson encoder: two-space
indentation per nesting level, members separated by a comma and newline,
and no space after the colon (the encoder is built without extra
whitespace). -/

/-- Escape a JSON string body the way pandas' vendored ujson encoder does
for the characters the claims exercise: backslash-escape `"`, `\` and `/`
(the encoder escapes the forward slash too).  Control-character and
non-ASCII (`\uXXXX`) escaping is outside the model; the serialized-output
theorems restrict keys to characters the encoder renders verbatim. -/
def escChars : List Char → List Char
  | [] => []
  | c :: rest => (if c = '"' ∨ c = '\\' ∨ c = '/' then ['\\', c] else [c]) ++ escChars rest

/-- Serialize one scalar cell as JSON text. -/
def printScalar : JVal → List Char
  | .jnum n => intToChars n
  | .jstr s => '"' :: (escChars s.toList ++ ['"'])
  | .jbool true => ['t', 'r', 'u', 'e']
  | .jbool false => ['f', 'a', 'l', 's', 'e']
  | .jnull => ['n', 'u', 'l', 'l']

/-- Serialize one `"key":value` member.  pandas' vendored ujson encoder
emits no space after the colon, with or without `indent`. -/
def printMember (k : String) (v : JVal) : List Char :=
  '"' :: (escChars k.toList ++ ['"', ':'] ++ printScalar v)

/-- Serialize the members of a record at four-space indentation, separated by
`,\n`. -/
def printMembers : Record → List Char
  | [] => []
  | [(k, v)] => [' ', ' ', ' ', ' '] ++ printMember k v
  | (k, v) :: rest => [' ', ' ', ' ', ' '] ++ printMember k v ++ [',', '\n'] ++ printMembers rest

/-- Serialize one record as an indented JSON object at two-space
indentation.  The empty-record layout (`\x7b\x7d` here; the indented ujson
encoder inserts bare newlines) is an approximation outside every theorem's
domain: the serialization theorems require non-empty records. -/
def printObj (r : Record) : List Char :=
  match r with
  | [] => ['{', '}']
  | _ => ['{', '\n'] ++ printMembers r ++ ['\n', ' ', ' ', '}']

/-- Serialize the records of a non-empty array, separated by `,\n  `. -/
def printRows : List Record → List Char
  | [] => []
  | [r] => printObj r
  | r :: rest => printObj r ++ [',', '\n', ' ', ' '] ++ printRows rest

/-- Serialize an array of records with two-space indentation and no space
after colons: the model of `DataFrame.to_json(orient='records', indent=2)`
(the `dump_params` entry for `'json'` at `restful.py` line 37), following
the vendored ujson encoder's indented layout.  The empty-array layout is an
approximation outside every theorem's domain: the serialization theorems
require a non-empty array. -/
def printTop (rows : List Record) : List Char :=
  match rows with
  | [] => ['[', ']']
  | _ => ['[', '\n', ' ', ' '] ++ printRows rows ++ ['\n', ']']

/-- The tabular structure `pandas.read_json` produces: named columns and
rows of cells, one cell per column. -/
structure DataFrame where
  columns : List String
  rows : List (List JVal)
deriving DecidableEq

/-- Append the keys `ks` to `acc`, keeping first occurrences only. -/
def addKeys (acc : List String) (ks : List String) : List String :=
  ks.foldl (fun a k => if k ∈ a then a else a ++ [k]) acc

/-- Columns of an array of records: union of keys in first-seen order. -/
def colsOf (recs : List Record) : List String :=
  recs.foldl (fun a r => addKeys a (r.map Prod.fst)) []

/-- The row of one record under a column list: missing keys become null
(`NaN` in the frame, `null` when re-serialized). -/
def rowOf (cols : List String) (r : Record) : List JVal :=
  cols.map (fun c => (r.lookup c).getD .jnull)

/-- Build the `DataFrame` of an array of records.  Cells keep their parsed
scalar type; pandas' dtype coercions are not modelled — in particular a
numeric column containing missing values becomes float64, so the program
writes `1.0` where this model keeps `1`.  The round-trip theorem's
hypotheses exclude missing fields, and the heterogeneous-array
counterexample uses string cells, whose columns pandas keeps as objects. -/
def toDF (recs : List Record) : DataFrame :=
  ⟨colsOf recs, recs.map (rowOf (colsOf recs))⟩

/-- The records a `DataFrame` serializes back to: every row paired with the
full column list. -/
def dfRecords (df : DataFrame) : List Record :=
  df.rows.map (fun row => df.columns.zip row)

/-- The text `DataFrame.to_json(orient='records', indent=2)` writes. -/
def dfToJson (df : DataFrame) : String :=
  String.mk (printTop (dfRecords df))

/-- One CSV cell.  Modelled from the pandas docs: numbers and booleans via
`str`, missing values empty; quoting of separators is outside the model
(no claim exercises it). -/
def csvCell : JVal → List Char
  | .jnum n => intToChars n
  | .jstr s => s.toList
  | .jbool true => ['T', 'r', 'u', 'e']
  | .jbool false => ['F', 'a', 'l', 's', 'e']
  | .jnull => []

/-- Join character lists with a separator. -/
def joinSep (sep : List Char) : List (List Char) → List Char
  | [] => []
  | [x] => x
  | x :: rest => x ++ sep ++ joinSep sep rest

/-- The text `DataFrame.to_csv(..., index=False)` writes: a header row then
one comma-separated row per record, no index column (modelled from the
pandas docs). -/
def dfToCsv (df : DataFrame) : String :=
  String.mk (joinSep [','] (df.columns.map String.toList) ++ ['\n'] ++
    (df.rows.map (fun row => joinSep [','] (row.map csvCell) ++ ['\n'])).flatten)

/-! ## `Writer.save` -/

/-- Split off the extension after the last `'.'`: the model of
`out_file.rsplit('.', 1)` unpacked into two names (`restful.py` line 59).
`none` when the path has no dot, in which case the Python two-element unpack
raises `ValueError`. -/
def rsplitAux : List Char → Option (List Char × List Char)
  | [] => none
  | c :: rest =>
    match rsplitAux rest with
    | some (p, q) => some (c :: p, q)
    | none => if c = '.' then some ([], rest) else none

/-- `out_file.rsplit('.', 1)` as `(file_name, ext)`. -/
def rsplitDot (s : String) : Option (String × String) :=
  (rsplitAux s.toList).map (fun p => (String.mk p.1, String.mk p.2))

/-- A Python exception of this program, as main can observe it. -/
inductive PyErr where
  /-- `Exception("Must required valid json data")` from `APITester.post`. -/
  | invalidInput
  /-- `json.JSONDecodeError` escaping `json.loads` on the given input. -/
  | jsonDecode (s : String)
  /-- `Exception("Can't process non-success(2xx) request")` from `__init__`. -/
  | nonSuccess
  /-- `ValueError` from unpacking a dot-free `rsplit('.', 1)` result. -/
  | valueErrorSplit (path : String)
  /-- `ValueError` from `pandas.read_json` on unparsable text. -/
  | parseError (text : String)
  /-- A `requests` network failure with the given message. -/
  | network (msg : String)
  /-- `AttributeError` from `getattr(self, method)` on an unknown method. -/
  | attrError (method : String)
deriving DecidableEq

/-- `str(e)` of an exception.  The `invalidInput` and `nonSuccess` texts are
the literals raised in `restful.py` (lines 152 and 108); `valueErrorSplit`
is CPython's two-element-unpack message; the remaining texts are modelled
from the respective libraries' documented message shapes. -/
def errMsg : PyErr → String
  | .invalidInput => "Must required valid json data"
  | .jsonDecode s => "JSONDecodeError: " ++ s
  | .nonSuccess => "Can't process non-success(2xx) request"
  | .valueErrorSplit _ => "not enough values to unpack (expected 2, got 1)"
  | .parseError _ => "Expected object or value"
  | .network m => m
  | .attrError m => "'APITester' object has no attribute '" ++ m ++ "'"

/-- The observable outcome of one `Writer.save` call. -/
inductive SaveOut where
  /-- A file was written: its path and its full content. -/
  | wrote (f : String × String)
  /-- The not-implemented notice was printed; nothing written. -/
  | notice (line : String)
  /-- An exception escaped `save`. -/
  | err (e : PyErr)
deriving DecidableEq

/-- The written file of a `save` outcome, if any. -/
def writtenOf : SaveOut → Option (String × String)
  | .wrote f => some f
  | _ => none

/-- Model of `Writer.save` (`restful.py` lines 47-68): parse the response
text into a frame, split the extension off the output path, then dispatch on
the extension: `json` and `csv` write one file at `file_name.ext`; any other
extension prints the (literal, because the source string is not an f-string)
notice `not implemented for .{ext}` and writes nothing. -/
def save (out_file : String) (res_text : String) : SaveOut :=
  match parseRecords res_text with
  | none => .err (.parseError res_text)
  | some recs =>
    match rsplitDot out_file with
    | none => .err (.valueErrorSplit out_file)
    | some (file_name, ext) =>
      if ext = "json" then
        .wrote (file_name ++ "." ++ ext, dfToJson (toDF recs))
      else if ext = "csv" then
        .wrote (file_name ++ "." ++ ext, dfToCsv (toDF recs))
      else .notice "not implemented for .\x7bext\x7d"

/-! ## `APITester` -/

/-- An HTTP response as the program observes it. -/
structure Response where
  status_code : Nat
  text : String
deriving DecidableEq

/-- The payload `vars(args)` built by `main`: `data` and `output` are `none`
when the options were not supplied. -/
structure Payload where
  method : String
  endpoint : String
  data : Option String
  output : Option String

/-- The fixed base domain (`restful.py` line 81). -/
def domain : String := "https://jsonplaceholder.typicode.com"

/-- The full request URL `f"{self.domain}/{self.payload['endpoint']}"`. -/
def urlOf (p : Payload) : String :=
  domain ++ "/" ++ p.endpoint

/-- One HTTP request handed to the `requests` library: the URL and, for
POST, the decoded value passed as the `data=` argument. -/
structure SentReq where
  isPost : Bool
  url : String
  data : Option PyVal

/-- `str()` of a decoded scalar, as form encoding renders it. -/
def pyScalarStr : PyVal → Option String
  | .num n => some (String.mk (intToChars n))
  | .str s => some s
  | .bool true => some "True"
  | .bool false => some "False"
  | _ => none

/-- Form-encode a flat dict as `k=v` pairs joined by `&`.  Modelled from the
`requests` documentation of the `data=` parameter; percent-escaping is
outside the model (no claim exercises characters needing it). -/
def formEncode (kvs : List (String × PyVal)) : Option String :=
  (kvs.mapM (fun kv => (pyScalarStr kv.2).map (fun vs => kv.1 ++ "=" ++ vs))).map
    (fun parts => String.mk (joinSep ['&'] (parts.map String.toList)))

/-- The body bytes `requests.post(url, data=v)` puts on the wire, where the
model defines them: a dict is form-encoded, a string is sent verbatim.
Modelled from the `requests` documentation; other shapes are outside the
model. -/
def wireBody : PyVal → Option String
  | .dict kvs => formEncode kvs
  | .str s => some s
  | _ => none

/-- `json.dumps` of a decoded scalar. -/
def pyDumpsScalar : PyVal → Option (List Char)
  | .num n => some (intToChars n)
  | .str s => some ('"' :: (escChars s.toList ++ ['"']))
  | .bool true => some ['t', 'r', 'u', 'e']
  | .bool false => some ['f', 'a', 'l', 's', 'e']
  | .none_ => some ['n', 'u', 'l', 'l']
  | _ => none

/-- `json.dumps` of a flat JSON object with default separators — the
serialization the specification asserts for the POST body.  Modelled from
the spec (and the `json` library docs) for comparison with `wireBody`;
restricted to flat objects of scalars, which is all the comparison needs. -/
def pyDumpsFlat : PyVal → Option String
  | .dict kvs =>
    ((kvs.mapM (fun kv => (pyDumpsScalar kv.2).map
        (fun vs => '"' :: (escChars kv.1.toList ++ ['"', ':', ' '] ++ vs)))).map
      (fun parts => String.mk ('{' :: (joinSep [',', ' '] parts ++ ['}']))))
  | _ => none

/-- The environment a run executes against: what the network returns for a
GET of a URL, or a POST of a URL with a given `data=` value.  `Except.error`
is a `requests` exception with the given message. -/
structure HttpEnv where
  getResp : String → Except String Response
  postResp : String → PyVal → Except String Response

/-- The request part of `APITester.__init__`: the dynamic
`getattr(self, method)(url)` dispatch (line 97) together with `get`
(line 123) and `post` (lines 137-154).  Returns the requests handed to the
`requests` library and either the response or the exception that escaped.
`post` decodes `data` with `json.loads`; a missing `data` is a `TypeError`
inside `json.loads`, converted to `Exception("Must required valid json
data")`, while a syntactically invalid string raises `json.JSONDecodeError`,
which the `except TypeError` clause does not catch. -/
def requestPhase (env : HttpEnv) (p : Payload) : List SentReq × Except PyErr Response :=
  let u := urlOf p
  if p.method = "get" then
    ([⟨false, u, none⟩],
      match env.getResp u with
      | .ok r => .ok r
      | .error m => .error (.network m))
  else if p.method = "post" then
    match p.data with
    | none => ([], .error .invalidInput)
    | some s =>
      match loads s with
      | none => ([], .error (.jsonDecode s))
      | some v =>
        ([⟨true, u, some v⟩],
          match env.postResp u v with
          | .ok r => .ok r
          | .error m => .error (.network m))
  else ([], .error (.attrError p.method))

/-- `str(n)` of a status code. -/
def statusStr (resp : Response) : String :=
  String.mk (natToChars resp.status_code)

/-- The `status_code: ...` line printed at `restful.py` line 99. -/
def statusLine (resp : Response) : String :=
  "status_code: " ++ statusStr resp

/-- The message of the `requests.HTTPError` raised by
`response.raise_for_status()` for a 4xx/5xx code.  Modelled from the
`requests` sources: the message starts with the status code; the reason
phrase and URL it also contains are abbreviated. -/
def httpErrMsg (code : Nat) : String :=
  String.mk (natToChars code) ++
    (if code < 500 then " Client Error for url" else " Server Error for url")

/-- The observable outcome of the response half of `__init__`: lines printed
(in order), files written, and the exception escaping `__init__`, if any. -/
structure HandleOut where
  printed : List String
  written : List (String × String)
  raised : Option PyErr
deriving DecidableEq

/-- A rough rendering of `pprint(response.json())` output.  Modelled from
the spec: the decoded body is pretty-printed to stdout; no claim constrains
the layout, so the rendering is a placeholder tag plus the raw text. -/
def pprintRendering (text : String) : String :=
  "pprint " ++ text

/-- The stdout-dump branch of `__init__` (line 120): `response.json()`
decodes the body (raising `json.JSONDecodeError` past `__init__` on
non-JSON bodies) and `pprint` renders it. -/
def pprintOut (resp : Response) : HandleOut :=
  match loads resp.text with
  | some _ => ⟨[statusLine resp, pprintRendering resp.text], [], none⟩
  | none => ⟨[statusLine resp], [], some (.jsonDecode resp.text)⟩

/-- The array-wrapping of a bare JSON object (`restful.py` lines 114-116):
if the response text starts with `{` and ends with `}` it is wrapped in
`[...]` before being handed to `save`. -/
def wrapText (t : String) : String :=
  if t.toList.headD ' ' = '{' ∧ t.toList.getLastD ' ' = '}' then "[" ++ t ++ "]" else t

/-- Merge a `save` outcome into the handler outcome: a notice is a printed
line, an exception escapes `__init__` (the `else:` block is outside the
`try`). -/
def saveMerge (l1 : String) (s : SaveOut) : HandleOut :=
  match s with
  | .wrote f => ⟨[l1], [f], none⟩
  | .notice m => ⟨[l1, m], [], none⟩
  | .err e => ⟨[l1], [], some e⟩

/-- The response half of `APITester.__init__` (lines 99-120): print the
status line; `raise_for_status()` raises for 4xx/5xx and the `except` clause
prints the message; otherwise a leading status digit other than `'2'`
raises the non-success `Exception` out of `__init__`; otherwise a truthy
output path routes the (possibly array-wrapped) text to `save`, and no
output path pretty-prints the body. -/
def responsePhase (output : Option String) (resp : Response) : HandleOut :=
  if 400 ≤ resp.status_code ∧ resp.status_code < 600 then
    ⟨[statusLine resp, httpErrMsg resp.status_code], [], none⟩
  else if (natToChars resp.status_code).headD '0' ≠ '2' then
    ⟨[statusLine resp], [], some .nonSuccess⟩
  else
    match output with
    | some path =>
      if path = "" then pprintOut resp
      else saveMerge (statusLine resp) (save path (wrapText resp.text))
    | none => pprintOut resp

/-- The observable outcome of constructing `APITester(payload)`. -/
structure RunResult where
  sent : List SentReq
  printed : List String
  written : List (String × String)
  raised : Option PyErr

/-- Model of `APITester.__init__` (lines 84-120): perform the request; an
exception from the request or from `raise_for_status` is caught and printed
(lines 102-103); otherwise the response is handled, and anything the `else:`
block raises escapes to the caller. -/
def runAPITester (env : HttpEnv) (p : Payload) : RunResult :=
  match requestPhase env p with
  | (log, .error e) => ⟨log, [errMsg e], [], none⟩
  | (log, .ok resp) =>
    let h := responsePhase p.output resp
    ⟨log, h.printed, h.written, h.raised⟩

/-! ## `main` and the argument parser -/

/-- One pass of `argparse` over the argument vector.  Modelled from the
`argparse` documentation for the parser declared at `restful.py` lines
167-175: two positionals (`method` with choices `get`/`post`, `endpoint`),
the options `-d` (`--data`) and `-o` (`--output`) each taking one value,
`-h` for help.  Errors exit with code 2 (`--option=value` spellings and
prefix abbreviation are outside the model). -/
def parseArgsAux : List String → List String → Option String → Option String →
    Except Nat (List String × Option String × Option String)
  | [], pos, d, o => .ok (pos, d, o)
  | a :: rest, pos, d, o =>
    if a = "-h" ∨ a = "--help" then .error 0
    else if a = "-d" ∨ a = "--data" then
      match rest with
      | v :: r => parseArgsAux r pos (some v) o
      | [] => .error 2
    else if a = "-o" ∨ a = "--output" then
      match rest with
      | v :: r => parseArgsAux r pos d (some v)
      | [] => .error 2
    else if a.toList.headD ' ' = '-' ∧ a ≠ "-" then .error 2
    else parseArgsAux rest (pos ++ [a]) d o

/-- Model of `parser.parse_args()`: on success the payload `vars(args)`, on
failure the `SystemExit` code. -/
def parseArgs (argv : List String) : Except Nat Payload :=
  match parseArgsAux argv [] none none with
  | .error code => .error code
  | .ok (pos, d, o) =>
    match pos with
    | [m, e] => if m = "get" ∨ m = "post" then .ok ⟨m, e, d, o⟩ else .error 2
    | _ => .error 2

/-- The observable outcome of one run of the script. -/
structure MainOut where
  sent : List SentReq
  printed : List String
  written : List (String × String)
  exitCode : Nat

/-- Model of `main` (`restful.py` lines 158-187): a `SystemExit` from
argument parsing is caught and the `ExitCode:...` hint line printed; any
other exception is caught and its message printed.  Both handlers return
normally, so the process always terminates with exit status 0. -/
def mainModel (env : HttpEnv) (argv : List String) : MainOut :=
  match parseArgs argv with
  | .error code =>
    ⟨[], ["ExitCode:" ++ String.mk (natToChars code) ++ "    (-h for more info)"], [], 0⟩
  | .ok p =>
    let r := runAPITester env p
    ⟨r.sent, r.printed ++ (match r.raised with | some e => [errMsg e] | none => []),
      r.written, 0⟩

/-! ## Token shapes of serialized output

The token lists that tokenizing the serializer's output must produce; used
to state and prove the write-then-read round trip. -/

/-- The token of one scalar. -/
def scalarTok : JVal → Tok
  | .jnum n => .num n
  | .jstr s => .str s
  | .jbool b => .bool b
  | .jnull => .null

/-- Tokens of one serialized member. -/
def memToks (k : String) (v : JVal) : List Tok :=
  [.str k, .colon, scalarTok v]

/-- Tokens of the serialized members of a record, comma-separated. -/
def memsToks : Record → List Tok
  | [] => []
  | [(k, v)] => memToks k v
  | (k, v) :: rest => memToks k v ++ [.comma] ++ memsToks rest

/-- Tokens of one serialized record. -/
def objToks (r : Record) : List Tok :=
  match r with
  | [] => [.lbrace, .rbrace]
  | _ => .lbrace :: (memsToks r ++ [.rbrace])

/-- Tokens of the serialized records of an array, comma-separated. -/
def recsToks : List Record → List Tok
  | [] => []
  | [r] => objToks r
  | r :: rest => objToks r ++ [.comma] ++ recsToks rest

/-- Tokens of a serialized array of records. -/
def topToks (rows : List Record) : List Tok :=
  match rows with
  | [] => [.lbrack, .rbrack]
  | _ => .lbrack :: (recsToks rows ++ [.rbrack])

/-! ## Concrete environments for the claims -/

/-- An environment whose every response is status 200 with body
`{"id":1,"name":"a"}` — the worked example of the specification. -/
def env200 : HttpEnv :=
  ⟨fun _ => .ok ⟨200, "\x7b\"id\":1,\"name\":\"a\"\x7d"⟩,
   fun _ _ => .ok ⟨200, "\x7b\"id\":1,\"name\":\"a\"\x7d"⟩⟩

/-- Whether `needle` occurs at the start of `hay`. -/
def startsList : List Char → List Char → Bool
  | [], _ => true
  | _ :: _, [] => false
  | a :: as, b :: bs => a = b && startsList as bs

/-- Whether `needle` occurs contiguously anywhere in `hay`: used to state
that an error message does or does not carry a status code. -/
def containsSeq (needle : List Char) : List Char → Bool
  | [] => startsList needle []
  | c :: rest => startsList needle (c :: rest) || containsSeq needle rest

/-- Whether `suffix` occurs at the end of `l`. -/
def endsList (suffix l : List Char) : Bool :=
  startsList suffix.reverse l.reverse

/-- Column names `pandas.read_json` converts to dates by default
(`keep_default_dates`): names ending in `_at` or `_time`, equal to
`modified`, `date` or `datetime`, or starting with `timestamp`,
case-insensitively.  Modelled from the pandas sources; the round-trip
theorem excludes such columns because the program converts them to epoch
timestamps instead of round-tripping them. -/
def dateLikeCol (k : String) : Bool :=
  let l := k.toList.map Char.toLower
  endsList "_at".toList l || endsList "_time".toList l ||
    startsList "timestamp".toList l || l == "modified".toList ||
    l == "date".toList || l == "datetime".toList

/-- A key the modelled serializer provably renders exactly as pandas'
encoder does: printable ASCII without the characters the encoder escapes
(`"`, `\`, `/`). -/
def plainKey (k : String) : Bool :=
  k.toList.all (fun c =>
    decide (32 ≤ c.toNat ∧ c.toNat < 127 ∧ c ≠ '"' ∧ c ≠ '\\' ∧ c ≠ '/'))

/-- A cell that survives pandas' dtype handling unchanged: an integer in
int64 range.  Full integer columns stay int64 and re-serialize as plain
integers; other cell shapes (floats, numeric-looking strings, columns
mixing types or containing missing values) are subject to coercions the
model does not follow. -/
def i64NumCell : JVal → Bool
  | .jnum n => decide (-(2 ^ 63) ≤ n) && decide (n < 2 ^ 63)
  | _ => false

/-- The exact file content the specification's worked example asserts for
`out.json`: array-wrapped, two-space indentation, a space after each colon
(json.dumps-style).  Stated from the spec's words for comparison with the
program's output, which the pandas encoder writes without the colon
spaces. -/
def specWorkedExampleText : String :=
  "[\n  \x7b\n    \"id\": 1,\n    \"name\": \"a\"\n  \x7d\n]"

/-! # Theorems

## Decimal digit printing -/

theorem digitChar_isDigit {d : Nat} (h : d < 10) : (digitChar d).isDigit = true := by
  interval_cases d <;> rfl

theorem digitChar_sub48 {d : Nat} (h : d < 10) : (digitChar d).toNat - 48 = d := by
  interval_cases d <;> rfl

theorem natToRevDigitsF_fuel : ∀ (f1 n f2 : Nat), n < f1 → n < f2 →
    natToRevDigitsF f1 n = natToRevDigitsF f2 n := by
  intro f1
  induction f1 with
  | zero => intro n f2 h1 _; omega
  | succ f ih =>
    intro n f2 h1 h2
    cases f2 with
    | zero => omega
    | succ g =>
      simp only [natToRevDigitsF]
      by_cases hn : n = 0
      · simp [hn]
      · simp only [hn, if_false]
        have h10 : n / 10 < n := Nat.div_lt_self (by omega) (by omega)
        rw [ih (n / 10) g (by omega) (by omega)]

theorem digitsVal_append_digit (xs : List Char) (c : Char) :
    digitsVal (xs ++ [c]) = 10 * digitsVal xs + (c.toNat - 48) := by
  simp [digitsVal, List.foldl_append]

theorem digitsVal_revDigits : ∀ (n : Nat), ∀ (f : Nat), n < f →
    digitsVal ((natToRevDigitsF f n).reverse) = n := by
  intro n
  induction n using Nat.strong_induction_on with
  | _ n ih =>
    intro f hf
    cases f with
    | zero => omega
    | succ g =>
      simp only [natToRevDigitsF]
      by_cases hn : n = 0
      · simp [hn, digitsVal]
      · simp only [hn, if_false, List.reverse_cons]
        rw [digitsVal_append_digit]
        have h10 : n / 10 < n := Nat.div_lt_self (by omega) (by omega)
        rw [ih (n / 10) h10 g (by omega)]
        rw [digitChar_sub48 (Nat.mod_lt _ (by omega))]
        omega

theorem digitsVal_natToChars (n : Nat) : digitsVal (natToChars n) = n := by
  unfold natToChars
  by_cases hn : n = 0
  · subst hn; rfl
  · rw [if_neg hn]; exact digitsVal_revDigits n (n + 1) (by omega)

theorem revDigitsF_isDigit : ∀ (f n : Nat) (c : Char), c ∈ natToRevDigitsF f n →
    c.isDigit = true := by
  intro f
  induction f with
  | zero => intro n c hc; simp [natToRevDigitsF] at hc
  | succ g ih =>
    intro n c hc
    by_cases hn : n = 0
    · simp [natToRevDigitsF, hn] at hc
    · simp only [natToRevDigitsF, hn, if_false, List.mem_cons] at hc
      rcases hc with rfl | hc
      · exact digitChar_isDigit (Nat.mod_lt _ (by omega))
      · exact ih _ _ hc

theorem natToChars_isDigit (n : Nat) : ∀ c ∈ natToChars n, c.isDigit = true := by
  intro c hc
  unfold natToChars at hc
  by_cases hn : n = 0
  · rw [if_pos hn] at hc; simp at hc; subst hc; rfl
  · rw [if_neg hn, List.mem_reverse] at hc; exact revDigitsF_isDigit _ _ _ hc

theorem natToChars_ne_nil (n : Nat) : natToChars n ≠ [] := by
  unfold natToChars
  by_cases hn : n = 0
  · simp [hn]
  · rw [if_neg hn]
    simp only [natToRevDigitsF, hn, if_false]
    simp

/-- For a three-digit status code the first printed character is the
hundreds digit. -/
theorem natToChars_headD_of_range {n : Nat} (h4 : 400 ≤ n) (h6 : n < 600) :
    (natToChars n).headD '0' = digitChar (n / 100) := by
  have e1 : natToRevDigitsF (n + 1) n =
      digitChar (n % 10) :: natToRevDigitsF n (n / 10) := by
    simp only [natToRevDigitsF]
    rw [if_neg (by omega)]
  have e2 : natToRevDigitsF n (n / 10) =
      digitChar ((n / 10) % 10) :: natToRevDigitsF (n / 10) (n / 100) := by
    rw [natToRevDigitsF_fuel n (n / 10) (n / 10 + 1) (by omega) (by omega)]
    simp only [natToRevDigitsF]
    rw [if_neg (by omega)]
    rw [Nat.div_div_eq_div_mul]
  have e3 : natToRevDigitsF (n / 10) (n / 100) = [digitChar (n / 100)] := by
    rw [natToRevDigitsF_fuel (n / 10) (n / 100) (n / 100 + 1) (by omega) (by omega)]
    simp only [natToRevDigitsF]
    rw [if_neg (by omega)]
    rw [Nat.div_div_eq_div_mul]
    have hz : n / (100 * 10) = 0 := by omega
    rw [hz]
    rw [natToRevDigitsF_fuel (n / 100) 0 1 (by omega) (by omega)]
    have hmod : n / 100 % 10 = n / 100 := by omega
    rw [hmod]
    rfl
  unfold natToChars
  rw [if_neg (by omega), e1, e2, e3]
  rfl

/-- The leading digit of a 4xx or 5xx status code is not `'2'`. -/
theorem headD_ne_two_of_range {n : Nat} (h4 : 400 ≤ n) (h6 : n < 600) :
    (natToChars n).headD '0' ≠ '2' := by
  rw [natToChars_headD_of_range h4 h6]
  have h45 : n / 100 = 4 ∨ n / 100 = 5 := by omega
  rcases h45 with h | h <;> rw [h] <;> decide

/-! ## Tokenizer: consumption bounds and fuel irrelevance -/

theorem stripChars_length : ∀ (ps l r : List Char), stripChars ps l = some r →
    r.length ≤ l.length := by
  intro ps
  induction ps with
  | nil =>
    intro l r h
    simp only [stripChars, Option.some.injEq] at h
    subst h; omega
  | cons p ps ih =>
    intro l r h
    cases l with
    | nil => simp [stripChars] at h
    | cons c cs =>
      simp only [stripChars] at h
      by_cases hc : c = p
      · rw [if_pos hc] at h
        have := ih _ _ h
        simp only [List.length_cons]; omega
      · rw [if_neg hc] at h; cases h

theorem takeDigits_length : ∀ (l : List Char), (takeDigits l).2.length ≤ l.length := by
  intro l
  induction l with
  | nil => simp [takeDigits]
  | cons c cs ih =>
    simp only [takeDigits]
    by_cases hc : c.isDigit
    · rw [if_pos hc]; simp only [List.length_cons]; omega
    · rw [if_neg hc]

theorem lexStrB_length : ∀ (l : List Char) (b : Bool) (p : List Char × List Char),
    lexStrB b l = some p → p.2.length < l.length := by
  intro l
  induction l with
  | nil => intro b p hp; cases b <;> simp [lexStrB] at hp
  | cons c rest ih =>
    intro b p hp
    cases b with
    | true =>
      simp only [lexStrB] at hp
      cases hq : lexStrB false rest with
      | none => rw [hq] at hp; cases hp
      | some q =>
        rw [hq] at hp
        simp only [Option.map_some', Option.some.injEq] at hp
        subst hp
        have := ih false q hq
        simp only [List.length_cons]; omega
    | false =>
      simp only [lexStrB] at hp
      by_cases h1 : c = '"'
      · rw [if_pos h1] at hp
        cases hp
        simp
      · rw [if_neg h1] at hp
        by_cases h2 : c = '\\'
        · rw [if_pos h2] at hp
          have := ih true p hp
          simp only [List.length_cons]; omega
        · rw [if_neg h2] at hp
          cases hq : lexStrB false rest with
          | none => rw [hq] at hp; cases hp
          | some q =>
            rw [hq] at hp
            simp only [Option.map_some', Option.some.injEq] at hp
            subst hp
            have := ih false q hq
            simp only [List.length_cons]; omega

theorem lexStr_length {l : List Char} {p : List Char × List Char} (h : lexStr l = some p) :
    p.2.length < l.length :=
  lexStrB_length l false p h

theorem tokenizeF_fuel : ∀ (f1 : Nat) (l : List Char) (f2 : Nat),
    l.length < f1 → l.length < f2 → tokenizeF f1 l = tokenizeF f2 l := by
  intro f1
  induction f1 with
  | zero => intro l f2 h1 _; omega
  | succ f ih =>
    intro l f2 h1 h2
    cases f2 with
    | zero => omega
    | succ g =>
      cases l with
      | nil => rfl
      | cons c rest =>
        have hrest : rest.length < f := by
          simp only [List.length_cons] at h1; omega
        have hrestg : rest.length < g := by
          simp only [List.length_cons] at h2; omega
        have htd := takeDigits_length rest
        simp only [tokenizeF]
        by_cases hdig : c.isDigit
        · rw [if_pos hdig, if_pos hdig]
          rw [ih (takeDigits rest).2 g (by omega) (by omega)]
        · rw [if_neg hdig, if_neg hdig]
          by_cases hm : c = '-'
          · rw [if_pos hm, if_pos hm]
            by_cases he : (takeDigits rest).1.isEmpty
            · rw [if_pos he, if_pos he]
            · rw [if_neg he, if_neg he]
              rw [ih (takeDigits rest).2 g (by omega) (by omega)]
          · rw [if_neg hm, if_neg hm]
            by_cases hq : c = '"'
            · rw [if_pos hq, if_pos hq]
              cases hx : lexStr rest with
              | none => rfl
              | some q =>
                have := lexStr_length hx
                obtain ⟨s, r⟩ := q
                simp only [hx]
                rw [ih r g (by simp at this; omega) (by simp at this; omega)]
            · rw [if_neg hq, if_neg hq]
              by_cases hws : c = ' ' ∨ c = '\n' ∨ c = '\t' ∨ c = '\r'
              · rw [if_pos hws, if_pos hws]
                exact ih rest g hrest hrestg
              · rw [if_neg hws, if_neg hws]
                by_cases s1 : c = '['
                · rw [if_pos s1, if_pos s1, ih rest g hrest hrestg]
                · rw [if_neg s1, if_neg s1]
                  by_cases s2 : c = ']'
                  · rw [if_pos s2, if_pos s2, ih rest g hrest hrestg]
                  · rw [if_neg s2, if_neg s2]
                    by_cases s3 : c = '{'
                    · rw [if_pos s3, if_pos s3, ih rest g hrest hrestg]
                    · rw [if_neg s3, if_neg s3]
                      by_cases s4 : c = '}'
                      · rw [if_pos s4, if_pos s4, ih rest g hrest hrestg]
                      · rw [if_neg s4, if_neg s4]
                        by_cases s5 : c = ','
                        · rw [if_pos s5, if_pos s5, ih rest g hrest hrestg]
                        · rw [if_neg s5, if_neg s5]
                          by_cases s6 : c = ':'
                          · rw [if_pos s6, if_pos s6, ih rest g hrest hrestg]
                          · rw [if_neg s6, if_neg s6]
                            by_cases t1 : c = 't'
                            · rw [if_pos t1, if_pos t1]
                              cases hx : stripChars ['r', 'u', 'e'] rest with
                              | none => rfl
                              | some r =>
                                have := stripChars_length _ _ _ hx
                                simp only [hx]
                                rw [ih r g (by omega) (by omega)]
                            · rw [if_neg t1, if_neg t1]
                              by_cases t2 : c = 'f'
                              · rw [if_pos t2, if_pos t2]
                                cases hx : stripChars ['a', 'l', 's', 'e'] rest with
                                | none => rfl
                                | some r =>
                                  have := stripChars_length _ _ _ hx
                                  simp only [hx]
                                  rw [ih r g (by omega) (by omega)]
                              · rw [if_neg t2, if_neg t2]
                                by_cases t3 : c = 'n'
                                · rw [if_pos t3, if_pos t3]
                                  cases hx : stripChars ['u', 'l', 'l'] rest with
                                  | none => rfl
                                  | some r =>
                                    have := stripChars_length _ _ _ hx
                                    simp only [hx]
                                    rw [ih r g (by omega) (by omega)]
                                · rw [if_neg t3, if_neg t3]

/-! ## Tokenizer: stepping lemmas

Each lemma peels one emitted token (or one whitespace character) off the
front of the input, in the style of prefix-consuming decoder lemmas. -/

theorem tok_nil : tokenize [] = some [] := rfl

theorem tok_space (l : List Char) : tokenize (' ' :: l) = tokenize l := by
  show tokenizeF (l.length + 1 + 1) (' ' :: l) = tokenizeF (l.length + 1) l
  simp [tokenizeF]

theorem tok_newline (l : List Char) : tokenize ('\n' :: l) = tokenize l := by
  show tokenizeF (l.length + 1 + 1) ('\n' :: l) = tokenizeF (l.length + 1) l
  simp [tokenizeF]

theorem tok_lbrack (l : List Char) :
    tokenize ('[' :: l) = (tokenize l).map (fun ts => Tok.lbrack :: ts) := by
  show tokenizeF (l.length + 1 + 1) ('[' :: l) = (tokenizeF (l.length + 1) l).map _
  simp [tokenizeF]

theorem tok_rbrack (l : List Char) :
    tokenize (']' :: l) = (tokenize l).map (fun ts => Tok.rbrack :: ts) := by
  show tokenizeF (l.length + 1 + 1) (']' :: l) = (tokenizeF (l.length + 1) l).map _
  simp [tokenizeF]

theorem tok_lbrace (l : List Char) :
    tokenize ('{' :: l) = (tokenize l).map (fun ts => Tok.lbrace :: ts) := by
  show tokenizeF (l.length + 1 + 1) ('{' :: l) = (tokenizeF (l.length + 1) l).map _
  simp [tokenizeF]

theorem tok_rbrace (l : List Char) :
    tokenize ('}' :: l) = (tokenize l).map (fun ts => Tok.rbrace :: ts) := by
  show tokenizeF (l.length + 1 + 1) ('}' :: l) = (tokenizeF (l.length + 1) l).map _
  simp [tokenizeF]

theorem tok_comma (l : List Char) :
    tokenize (',' :: l) = (tokenize l).map (fun ts => Tok.comma :: ts) := by
  show tokenizeF (l.length + 1 + 1) (',' :: l) = (tokenizeF (l.length + 1) l).map _
  simp [tokenizeF]

theorem tok_colon (l : List Char) :
    tokenize (':' :: l) = (tokenize l).map (fun ts => Tok.colon :: ts) := by
  show tokenizeF (l.length + 1 + 1) (':' :: l) = (tokenizeF (l.length + 1) l).map _
  simp [tokenizeF]

theorem tok_true (l : List Char) :
    tokenize ('t' :: 'r' :: 'u' :: 'e' :: l) = (tokenize l).map (fun ts => Tok.bool true :: ts) := by
  show tokenizeF (l.length + 4 + 1) ('t' :: 'r' :: 'u' :: 'e' :: l) = (tokenizeF (l.length + 1) l).map _
  simp [tokenizeF, stripChars]
  rw [tokenizeF_fuel (l.length + 4) l (l.length + 1) (by omega) (by omega)]

theorem tok_false (l : List Char) :
    tokenize ('f' :: 'a' :: 'l' :: 's' :: 'e' :: l) =
      (tokenize l).map (fun ts => Tok.bool false :: ts) := by
  show tokenizeF (l.length + 5 + 1) ('f' :: 'a' :: 'l' :: 's' :: 'e' :: l) =
    (tokenizeF (l.length + 1) l).map _
  simp [tokenizeF, stripChars]
  rw [tokenizeF_fuel (l.length + 5) l (l.length + 1) (by omega) (by omega)]

theorem tok_null (l : List Char) :
    tokenize ('n' :: 'u' :: 'l' :: 'l' :: l) = (tokenize l).map (fun ts => Tok.null :: ts) := by
  show tokenizeF (l.length + 4 + 1) ('n' :: 'u' :: 'l' :: 'l' :: l) = (tokenizeF (l.length + 1) l).map _
  simp [tokenizeF, stripChars]
  rw [tokenizeF_fuel (l.length + 4) l (l.length + 1) (by omega) (by omega)]

theorem lexStrB_esc (cs : List Char) (l : List Char) :
    lexStrB false (escChars cs ++ '"' :: l) = some (cs, l) := by
  induction cs with
  | nil => simp [escChars, lexStrB]
  | cons c cs ih =>
    by_cases h : c = '"' ∨ c = '\\' ∨ c = '/'
    · simp only [escChars, if_pos h, List.cons_append, List.append_assoc]
      rcases h with rfl | rfl | rfl <;> simp [lexStrB, ih, unescChar]
    · simp only [escChars, if_neg h, List.cons_append]
      push_neg at h
      simp [lexStrB, h.1, h.2.1, ih]

theorem tok_quote (cs : List Char) (l : List Char) :
    tokenize ('"' :: (escChars cs ++ '"' :: l)) =
      (tokenize l).map (fun ts => Tok.str (String.mk cs) :: ts) := by
  show tokenizeF ((escChars cs ++ '"' :: l).length + 1 + 1) _ = (tokenizeF (l.length + 1) l).map _
  simp only [tokenizeF]
  rw [show lexStr (escChars cs ++ '"' :: l) = some (cs, l) from lexStrB_esc cs l]
  simp only [if_true]
  rw [if_neg (by decide : ¬('"'.isDigit = true))]
  rw [if_neg (by decide : ¬('"' = '-'))]
  congr 1
  exact tokenizeF_fuel _ l _ (by simp [List.length_append]; omega) (by omega)

theorem takeDigits_app (ds l : List Char) (hds : ∀ c ∈ ds, c.isDigit = true)
    (hl : headIsDigit l = false) : takeDigits (ds ++ l) = (ds, l) := by
  induction ds with
  | nil =>
    cases l with
    | nil => rfl
    | cons c cs =>
      simp only [headIsDigit] at hl
      simp [takeDigits, hl]
  | cons d ds ih =>
    have hd : d.isDigit = true := hds d (by simp)
    have ih2 := ih (fun c hc => hds c (by simp [hc]))
    have ih3 : takeDigits (ds.append l) = (ds, l) := ih2
    simp only [List.cons_append, takeDigits, hd, if_true, ih2, ih3]

theorem tok_number (d : Char) (ds l : List Char) (hd : d.isDigit = true)
    (hds : ∀ c ∈ ds, c.isDigit = true) (hl : headIsDigit l = false) :
    tokenize ((d :: ds) ++ l) =
      (tokenize l).map (fun ts => Tok.num (digitsVal (d :: ds)) :: ts) := by
  show tokenizeF ((ds ++ l).length + 1 + 1) (d :: (ds ++ l)) = (tokenizeF (l.length + 1) l).map _
  simp only [tokenizeF, hd, if_true]
  rw [takeDigits_app ds l hds hl]
  congr 1
  exact tokenizeF_fuel _ l _ (by simp [List.length_append]; omega) (by omega)

theorem tok_int (n : Int) (l : List Char) (hl : headIsDigit l = false) :
    tokenize (intToChars n ++ l) = (tokenize l).map (fun ts => Tok.num n :: ts) := by
  cases n with
  | ofNat m =>
    obtain ⟨d, ds, he⟩ := List.exists_cons_of_ne_nil (natToChars_ne_nil m)
    have hds : ∀ c ∈ natToChars m, c.isDigit = true := natToChars_isDigit m
    rw [he] at hds
    have hval : digitsVal (d :: ds) = m := by
      rw [← he]; exact digitsVal_natToChars m
    show tokenize (natToChars m ++ l) = _
    rw [he, tok_number d ds l (hds d (by simp)) (fun c hc => hds c (by simp [hc])) hl, hval]
    rfl
  | negSucc m =>
    obtain ⟨d, ds, he⟩ := List.exists_cons_of_ne_nil (natToChars_ne_nil (m + 1))
    have hds : ∀ c ∈ natToChars (m + 1), c.isDigit = true := natToChars_isDigit (m + 1)
    have hval : digitsVal (natToChars (m + 1)) = m + 1 := digitsVal_natToChars (m + 1)
    show tokenize ('-' :: (natToChars (m + 1) ++ l)) = _
    show tokenizeF ((natToChars (m + 1) ++ l).length + 1 + 1) _ = (tokenizeF (l.length + 1) l).map _
    simp only [tokenizeF]
    rw [takeDigits_app (natToChars (m + 1)) l hds hl]
    rw [if_neg (by decide : ¬('-'.isDigit = true))]
    simp only [if_true]
    rw [he]
    simp only [List.isEmpty_cons, Bool.false_eq_true, if_false]
    rw [← he, hval]
    have hneg : (-(↑(m + 1) : Nat) : Int) = Int.negSucc m := by
      rw [Int.negSucc_eq]; push_cast; ring
    rw [hneg]
    congr 1
    exact tokenizeF_fuel _ l _ (by simp [List.length_append]; omega) (by omega)

/-! ## Tokenizing serialized output -/

theorem scalarOfTok_scalarTok (v : JVal) : scalarOfTok (scalarTok v) = some v := by
  cases v <;> rfl

theorem tok_printScalar (v : JVal) (l : List Char) (hl : headIsDigit l = false) :
    tokenize (printScalar v ++ l) = (tokenize l).map (fun ts => scalarTok v :: ts) := by
  cases v with
  | jnum n => exact tok_int n l hl
  | jstr s =>
    have e : printScalar (JVal.jstr s) ++ l = '"' :: (escChars s.toList ++ '"' :: l) := by
      simp [printScalar, List.append_assoc]
    rw [e, tok_quote s.toList l]
    rfl
  | jbool b => cases b with
    | true => exact tok_true l
    | false => exact tok_false l
  | jnull => exact tok_null l

theorem tok_printMember (k : String) (v : JVal) (l : List Char) (hl : headIsDigit l = false) :
    tokenize (printMember k v ++ l) = (tokenize l).map (fun ts => memToks k v ++ ts) := by
  have e : printMember k v ++ l =
      '"' :: (escChars k.toList ++ '"' :: (':' :: (printScalar v ++ l))) := by
    simp [printMember, List.append_assoc]
  rw [e, tok_quote k.toList (':' :: (printScalar v ++ l)), tok_colon,
    tok_printScalar v l hl]
  simp [Option.map_map, Function.comp_def, memToks]

theorem tok_printMembers (r : Record) (l : List Char) (hl : headIsDigit l = false) :
    tokenize (printMembers r ++ l) = (tokenize l).map (fun ts => memsToks r ++ ts) := by
  induction r with
  | nil => simp [printMembers, memsToks]
  | cons kv rest ih =>
    obtain ⟨k, v⟩ := kv
    cases rest with
    | nil =>
      have e : printMembers [(k, v)] ++ l =
          ' ' :: ' ' :: ' ' :: ' ' :: (printMember k v ++ l) := by
        simp [printMembers, List.append_assoc]
      rw [e, tok_space, tok_space, tok_space, tok_space, tok_printMember k v l hl]
      rfl
    | cons kv2 rest2 =>
      have e : printMembers ((k, v) :: kv2 :: rest2) ++ l =
          ' ' :: ' ' :: ' ' :: ' ' ::
            (printMember k v ++ (',' :: '\n' :: (printMembers (kv2 :: rest2) ++ l))) := by
        simp [printMembers, List.append_assoc]
      rw [e, tok_space, tok_space, tok_space, tok_space,
        tok_printMember k v (',' :: '\n' :: (printMembers (kv2 :: rest2) ++ l)) rfl,
        tok_comma, tok_newline, ih]
      simp [Option.map_map, Function.comp_def, memsToks, memToks]

theorem tok_printObj (r : Record) (l : List Char) :
    tokenize (printObj r ++ l) = (tokenize l).map (fun ts => objToks r ++ ts) := by
  cases r with
  | nil =>
    show tokenize ('{' :: '}' :: l) = _
    rw [tok_lbrace, tok_rbrace]
    simp [Option.map_map, Function.comp_def, objToks]
  | cons kv rest =>
    have e : printObj (kv :: rest) ++ l =
        '{' :: '\n' :: (printMembers (kv :: rest) ++ ('\n' :: ' ' :: ' ' :: '}' :: l)) := by
      simp [printObj, List.append_assoc]
    rw [e, tok_lbrace, tok_newline,
      tok_printMembers (kv :: rest) ('\n' :: ' ' :: ' ' :: '}' :: l) rfl,
      tok_newline, tok_space, tok_space, tok_rbrace]
    simp only [Option.map_map]
    have e2 : objToks (kv :: rest) = Tok.lbrace :: (memsToks (kv :: rest) ++ [Tok.rbrace]) := rfl
    simp [Function.comp_def, e2]

theorem tok_printRows (rows : List Record) (l : List Char) :
    tokenize (printRows rows ++ l) = (tokenize l).map (fun ts => recsToks rows ++ ts) := by
  induction rows with
  | nil => simp [printRows, recsToks]
  | cons r rest ih =>
    cases rest with
    | nil =>
      show tokenize (printObj r ++ l) = _
      rw [tok_printObj r l]
      rfl
    | cons r2 rest2 =>
      have e : printRows (r :: r2 :: rest2) ++ l =
          printObj r ++ (',' :: '\n' :: ' ' :: ' ' :: (printRows (r2 :: rest2) ++ l)) := by
        simp [printRows, List.append_assoc]
      rw [e, tok_printObj, tok_comma, tok_newline, tok_space, tok_space, ih]
      simp [Option.map_map, Function.comp_def, recsToks, List.append_assoc]

theorem tok_printTop (rows : List Record) :
    tokenize (printTop rows) = some (topToks rows) := by
  cases rows with
  | nil => rfl
  | cons r rest =>
    have e : printTop (r :: rest) =
        '[' :: '\n' :: ' ' :: ' ' :: (printRows (r :: rest) ++ ['\n', ']']) := by
      simp [printTop, List.append_assoc]
    rw [e, tok_lbrack, tok_newline, tok_space, tok_space, tok_printRows (r :: rest) ['\n', ']']]
    rw [show tokenize ['\n', ']'] = some [Tok.rbrack] from rfl]
    simp [topToks, List.append_assoc]

/-! ## Parsing serialized tokens -/

theorem memsToks_cons_shape (k : String) (v : JVal) (rest : Record) :
    ∃ tail, memsToks ((k, v) :: rest) = Tok.str k :: tail := by
  cases rest with
  | nil => exact ⟨[Tok.colon, scalarTok v], rfl⟩
  | cons kv2 rest2 => exact ⟨[Tok.colon, scalarTok v, Tok.comma] ++ memsToks (kv2 :: rest2), rfl⟩

theorem parseMembers_toks : ∀ (r : Record), r ≠ [] → ∀ (l : List Tok),
    parseMembers (memsToks r ++ Tok.rbrace :: l) = some (r, l) := by
  intro r
  induction r with
  | nil => intro h; exact absurd rfl h
  | cons kv rest ih =>
    intro _ l
    obtain ⟨k, v⟩ := kv
    cases rest with
    | nil =>
      show parseMembers (Tok.str k :: Tok.colon :: scalarTok v :: Tok.rbrace :: l) = _
      simp [parseMembers, scalarOfTok_scalarTok]
    | cons kv2 rest2 =>
      have e : memsToks ((k, v) :: kv2 :: rest2) ++ Tok.rbrace :: l =
          Tok.str k :: Tok.colon :: scalarTok v :: Tok.comma ::
            (memsToks (kv2 :: rest2) ++ Tok.rbrace :: l) := by
        simp [memsToks, memToks, List.append_assoc]
      rw [e]
      simp only [parseMembers]
      rw [scalarOfTok_scalarTok, ih (by simp) l]

theorem parseObj_toks (r : Record) (l : List Tok) : parseObj (objToks r ++ l) = some (r, l) := by
  cases r with
  | nil => rfl
  | cons kv rest =>
    obtain ⟨k, v⟩ := kv
    obtain ⟨tail, ht⟩ := memsToks_cons_shape k v rest
    have e : objToks ((k, v) :: rest) ++ l =
        Tok.lbrace :: Tok.str k :: (tail ++ Tok.rbrace :: l) := by
      simp [objToks, ht, List.append_assoc]
    rw [e]
    simp only [parseObj]
    have e2 : Tok.str k :: (tail ++ Tok.rbrace :: l) =
        memsToks ((k, v) :: rest) ++ Tok.rbrace :: l := by
      simp [ht]
    rw [e2]
    exact parseMembers_toks _ (by simp) l

theorem parseRecsF_toks : ∀ (rows : List Record), rows ≠ [] → ∀ (f : Nat) (l : List Tok),
    (recsToks rows).length < f →
    parseRecsF f (recsToks rows ++ Tok.rbrack :: l) = some (rows, l) := by
  intro rows
  induction rows with
  | nil => intro h; exact absurd rfl h
  | cons r rest ih =>
    intro _ f l hf
    cases f with
    | zero => omega
    | succ g =>
      cases rest with
      | nil =>
        show parseRecsF (g + 1) (objToks r ++ Tok.rbrack :: l) = some ([r], l)
        simp only [parseRecsF]
        rw [parseObj_toks r (Tok.rbrack :: l)]
      | cons r2 rest2 =>
        have e : recsToks (r :: r2 :: rest2) ++ Tok.rbrack :: l =
            objToks r ++ (Tok.comma :: (recsToks (r2 :: rest2) ++ Tok.rbrack :: l)) := by
          simp [recsToks, List.append_assoc]
        rw [e]
        simp only [parseRecsF]
        have hlen : (recsToks (r2 :: rest2)).length < g := by
          have h2 : 2 ≤ (objToks r).length := by
            cases r with
            | nil => rfl
            | cons kv rest3 => simp [objToks]
          rw [show recsToks (r :: r2 :: rest2) =
              objToks r ++ [Tok.comma] ++ recsToks (r2 :: rest2) from rfl] at hf
          simp only [List.length_append, List.length_cons, List.length_nil] at hf
          omega
        have hobj := parseObj_toks r (Tok.comma :: (recsToks (r2 :: rest2) ++ Tok.rbrack :: l))
        have hih := ih (by simp) g l hlen
        simp [hobj, hih]

theorem parseRecords_printTop (rows : List Record) :
    parseRecords (String.mk (printTop rows)) = some rows := by
  unfold parseRecords
  rw [show (String.mk (printTop rows)).toList = printTop rows from rfl]
  cases rows with
  | nil => rfl
  | cons r rest =>
    rw [tok_printTop (r :: rest)]
    have e : topToks (r :: rest) = Tok.lbrack :: (recsToks (r :: rest) ++ [Tok.rbrack]) := rfl
    rw [e]
    show (match parseRecsF ((recsToks (r :: rest) ++ [Tok.rbrack]).length + 1)
        (recsToks (r :: rest) ++ [Tok.rbrack]) with
      | some (recs, []) => some recs
      | _ => none) = some (r :: rest)
    rw [parseRecsF_toks (r :: rest) (by simp)
      ((recsToks (r :: rest) ++ [Tok.rbrack]).length + 1) []
      (by simp only [List.length_append, List.length_cons, List.length_nil]; omega)]

/-! ## The tabular normalization -/

theorem zip_fst_snd : ∀ (r : List (String × JVal)),
    (r.map Prod.fst).zip (r.map Prod.snd) = r := by
  intro r
  induction r with
  | nil => rfl
  | cons kv rest ih => obtain ⟨k, v⟩ := kv; simp [ih]

theorem lookup_keys_row : ∀ (r : Record), (r.map Prod.fst).Nodup →
    rowOf (r.map Prod.fst) r = r.map Prod.snd := by
  intro r
  induction r with
  | nil => intro _; rfl
  | cons kv rest ih =>
    intro hnd
    obtain ⟨k, v⟩ := kv
    simp only [List.map_cons, List.nodup_cons] at hnd ⊢
    simp only [rowOf, List.map_cons]
    have hhead : (List.lookup k ((k, v) :: rest)).getD JVal.jnull = v := by
      simp [List.lookup]
    rw [hhead]
    have hcongr : ∀ c ∈ rest.map Prod.fst,
        ((((k, v) :: rest).lookup c).getD JVal.jnull) = ((rest.lookup c).getD JVal.jnull) := by
      intro c hc
      have hck : c ≠ k := by
        intro hck; subst hck; exact hnd.1 hc
      have hb : (c == k) = false := beq_eq_false_iff_ne.mpr hck
      simp [List.lookup, hb]
    rw [List.map_congr_left hcongr]
    have htail := ih hnd.2
    simp only [rowOf] at htail
    rw [htail]

theorem zip_cols_rowOf (r : Record) (hnd : (r.map Prod.fst).Nodup) :
    (r.map Prod.fst).zip (rowOf (r.map Prod.fst) r) = r := by
  rw [lookup_keys_row r hnd]
  exact zip_fst_snd r

theorem addKeys_app : ∀ (ks acc : List String), (∀ k ∈ ks, k ∉ acc) → ks.Nodup →
    addKeys acc ks = acc ++ ks := by
  intro ks
  induction ks with
  | nil => intro acc _ _; simp [addKeys]
  | cons k ks ih =>
    intro acc hnotin hnd
    have hk : k ∉ acc := hnotin k (by simp)
    simp only [addKeys, List.foldl_cons, if_neg hk]
    simp only [List.nodup_cons] at hnd
    have := ih (acc ++ [k]) ?_ hnd.2
    · simpa [addKeys] using this
    · intro k2 hk2
      simp only [List.mem_append, List.mem_singleton]
      rintro (h | rfl)
      · exact hnotin k2 (by simp [hk2]) h
      · exact hnd.1 hk2

theorem addKeys_of_sub : ∀ (ks acc : List String), (∀ k ∈ ks, k ∈ acc) →
    addKeys acc ks = acc := by
  intro ks
  induction ks with
  | nil => intro acc _; rfl
  | cons k ks ih =>
    intro acc hsub
    simp only [addKeys, List.foldl_cons, if_pos (hsub k (by simp))]
    exact ih acc (fun k2 hk2 => hsub k2 (by simp [hk2]))

theorem foldl_addKeys_const (ks : List String) : ∀ (rest : List Record),
    (∀ r ∈ rest, r.map Prod.fst = ks) →
    List.foldl (fun a r => addKeys a (r.map Prod.fst)) ks rest = ks := by
  intro rest
  induction rest with
  | nil => intro _; rfl
  | cons r rest ih =>
    intro hall
    simp only [List.foldl_cons]
    rw [hall r (by simp), addKeys_of_sub ks ks (fun k hk => hk)]
    exact ih (fun r2 hr2 => hall r2 (by simp [hr2]))

theorem colsOf_homog (ks : List String) (recs : List Record)
    (hall : ∀ r ∈ recs, r.map Prod.fst = ks) (hnd : ks.Nodup) (hne : recs ≠ []) :
    colsOf recs = ks := by
  cases recs with
  | nil => exact absurd rfl hne
  | cons r rest =>
    simp only [colsOf, List.foldl_cons]
    rw [hall r (by simp)]
    rw [show addKeys [] ks = [] ++ ks from addKeys_app ks [] (by simp) hnd]
    simp only [List.nil_append]
    exact foldl_addKeys_const ks rest (fun r2 hr2 => hall r2 (by simp [hr2]))

/-- Under homogeneous keys (every record's key list is exactly `ks`, without
duplicates), the tabular normalization is the identity on the records. -/
theorem dfRecords_toDF (ks : List String) (recs : List Record) (hnd : ks.Nodup)
    (hall : ∀ r ∈ recs, r.map Prod.fst = ks) :
    dfRecords (toDF recs) = recs := by
  cases recs with
  | nil => rfl
  | cons r rest =>
    have hcols : colsOf (r :: rest) = ks :=
      colsOf_homog ks _ hall hnd (by simp)
    simp only [dfRecords, toDF, hcols, List.map_map]
    have hid : ∀ x ∈ (r :: rest), ks.zip (rowOf ks x) = x := by
      intro x hx
      rw [← hall x hx]
      exact zip_cols_rowOf x (by rw [hall x hx]; exact hnd)
    calc List.map (fun x => ks.zip (rowOf ks x)) (r :: rest)
        = List.map id (r :: rest) := List.map_congr_left (by simpa using hid)
      _ = r :: rest := List.map_id _

/-! ## Extension splitting -/

theorem rsplitAux_recon : ∀ (l : List Char) (p q : List Char),
    rsplitAux l = some (p, q) → p ++ '.' :: q = l := by
  intro l
  induction l with
  | nil => intro p q h; simp [rsplitAux] at h
  | cons c rest ih =>
    intro p q h
    simp only [rsplitAux] at h
    cases hr : rsplitAux rest with
    | some pq =>
      rw [hr] at h
      obtain ⟨p2, q2⟩ := pq
      simp only [Option.some.injEq, Prod.mk.injEq] at h
      obtain ⟨h1, h2⟩ := h
      subst h1; subst h2
      have := ih p2 q2 hr
      simp [this]
    | none =>
      rw [hr] at h
      by_cases hc : c = '.'
      · rw [if_pos hc] at h
        simp only [Option.some.injEq, Prod.mk.injEq] at h
        obtain ⟨h1, h2⟩ := h
        subst h1; subst h2
        simp [hc]
      · rw [if_neg hc] at h
        cases h

theorem rsplitAux_none : ∀ (l : List Char), '.' ∉ l → rsplitAux l = none := by
  intro l
  induction l with
  | nil => intro _; rfl
  | cons c rest ih =>
    intro hmem
    simp only [List.mem_cons, not_or] at hmem
    simp only [rsplitAux, ih hmem.2]
    rw [if_neg (fun h => hmem.1 h.symm)]

theorem rsplitDot_recon (s fn ext : String) (h : rsplitDot s = some (fn, ext)) :
    fn ++ "." ++ ext = s := by
  unfold rsplitDot at h
  cases hr : rsplitAux s.toList with
  | none => rw [hr] at h; cases h
  | some pq =>
    rw [hr] at h
    obtain ⟨p, q⟩ := pq
    simp only [Option.map_some', Option.some.injEq, Prod.mk.injEq] at h
    obtain ⟨h1, h2⟩ := h
    subst h1; subst h2
    apply String.ext
    rw [String.data_append, String.data_append]
    have := rsplitAux_recon s.toList p q hr
    simpa using this

/-! ## `Writer.save` dispatch -/

/-- The behaviour of `save` once the response parses and the path splits:
the extension alone picks the branch, and the written path is the
reassembled split, which equals the supplied path. -/
theorem save_dispatch (path text : String) (recs : List Record) (fn ext : String)
    (hparse : parseRecords text = some recs) (hsplit : rsplitDot path = some (fn, ext)) :
    ((ext ≠ "json" ∧ ext ≠ "csv") →
        save path text = SaveOut.notice "not implemented for .\x7bext\x7d") ∧
    (ext = "json" → save path text = SaveOut.wrote (path, dfToJson (toDF recs))) ∧
    (ext = "csv" → save path text = SaveOut.wrote (path, dfToCsv (toDF recs))) := by
  have hrecon : fn ++ "." ++ ext = path := rsplitDot_recon path fn ext hsplit
  unfold save
  simp only [hparse, hsplit]
  refine ⟨?_, ?_, ?_⟩
  · rintro ⟨h1, h2⟩
    rw [if_neg h1, if_neg h2]
  · rintro rfl
    rw [if_pos rfl, hrecon]
  · rintro rfl
    rw [if_neg (by decide), if_pos rfl, hrecon]

/-! # Claims -/

/-- C1, counterexample: a response with status code 300 (outside the 2xx
range) makes `__init__` raise the fixed non-success `Exception`, whose
message does not carry the status code `300`. -/
theorem c1_counterexample :
    responsePhase (some "out.json") ⟨300, "\x7b\x7d"⟩ =
      ⟨["status_code: 300"], [], some PyErr.nonSuccess⟩ ∧
    containsSeq "300".toList (errMsg PyErr.nonSuccess).toList = false := by
  exact ⟨rfl, rfl⟩

/-- C1 (amended): for every response whose status code's leading digit is
not `'2'`, no file is written; for a 4xx/5xx code `raise_for_status`
raises an `HTTPError` whose printed message starts with the status code
digits, while for any other non-2xx code the fixed non-success `Exception`
(without the code) escapes `__init__`. -/
theorem c1_non2xx_no_output (out : Option String) (resp : Response)
    (h2 : (natToChars resp.status_code).headD '0' ≠ '2') :
    (responsePhase out resp).written = [] ∧
    ((400 ≤ resp.status_code ∧ resp.status_code < 600 ∧
        responsePhase out resp =
          ⟨[statusLine resp, httpErrMsg resp.status_code], [], none⟩ ∧
        (∃ t, (httpErrMsg resp.status_code).data = natToChars resp.status_code ++ t)) ∨
      responsePhase out resp = ⟨[statusLine resp], [], some PyErr.nonSuccess⟩) := by
  by_cases hr : 400 ≤ resp.status_code ∧ resp.status_code < 600
  · have e : responsePhase out resp =
        ⟨[statusLine resp, httpErrMsg resp.status_code], [], none⟩ := by
      unfold responsePhase
      rw [if_pos hr]
    refine ⟨by rw [e], Or.inl ⟨hr.1, hr.2, e, ?_⟩⟩
    unfold httpErrMsg
    by_cases hc : resp.status_code < 500
    · exact ⟨(" Client Error for url" : String).data, by rw [if_pos hc, String.data_append]⟩
    · exact ⟨(" Server Error for url" : String).data, by rw [if_neg hc, String.data_append]⟩
  · have e : responsePhase out resp = ⟨[statusLine resp], [], some PyErr.nonSuccess⟩ := by
      unfold responsePhase
      rw [if_neg hr, if_pos h2]
    exact ⟨by rw [e], Or.inr e⟩

/-- Witness for `c1_non2xx_no_output` at status 404 with an output path. -/
theorem c1_witness :
    (natToChars (404 : Nat)).headD '0' ≠ '2' ∧
    (responsePhase (some "o.json") ⟨404, "x"⟩).written = [] :=
  ⟨by decide, (c1_non2xx_no_output (some "o.json") ⟨404, "x"⟩ (by decide)).1⟩

/-- C2, counterexample: on the spec's worked example the file the program
writes contains `"id":1` and `"name":"a"` — pandas' encoder puts no space
after the colon — so its content is not the exact text the claim asserts,
which has a space after each colon (`specWorkedExampleText`). -/
theorem c2_counterexample :
    (mainModel env200 ["get", "posts/1", "-o", "out.json"]).written =
      [("out.json", "[\n  \x7b\n    \"id\":1,\n    \"name\":\"a\"\n  \x7d\n]")] ∧
    ("[\n  \x7b\n    \"id\":1,\n    \"name\":\"a\"\n  \x7d\n]" : String) ≠
      specWorkedExampleText := by
  exact ⟨rfl, by decide⟩

/-- C2 (amended): on the spec's worked example — a 200 response with body
`{"id":1,"name":"a"}` and output path `out.json` — the run writes exactly
one file, at `out.json`, whose content is the array-wrapped record
serialized with two-space indentation in the pandas encoder's format,
which puts no space after the colon. -/
theorem c2_worked_example :
    mainModel env200 ["get", "posts/1", "-o", "out.json"] =
      ⟨[⟨false, "https://jsonplaceholder.typicode.com/posts/1", none⟩],
        ["status_code: 200"],
        [("out.json", "[\n  \x7b\n    \"id\":1,\n    \"name\":\"a\"\n  \x7d\n]")], 0⟩ ∧
    ("[\n  \x7b\n    \"id\":1,\n    \"name\":\"a\"\n  \x7d\n]" : String) =
      String.mk (printTop [[("id", JVal.jnum 1), ("name", JVal.jstr "a")]]) := by
  exact ⟨rfl, rfl⟩

/-- C3, counterexample: for `-d` data `{"a": 1}` the decoded dict is handed
to `requests.post` as the `data=` argument, whose wire body is the
form-encoded `a=1`, not the JSON encoding `{"a": 1}` of the decoded
value. -/
theorem c3_counterexample :
    (requestPhase env200 ⟨"post", "todos", some "\x7b\"a\": 1\x7d", none⟩).1 =
      [⟨true, "https://jsonplaceholder.typicode.com/todos",
        some (PyVal.dict [("a", PyVal.num 1)])⟩] ∧
    wireBody (PyVal.dict [("a", PyVal.num 1)]) = some "a=1" ∧
    pyDumpsFlat (PyVal.dict [("a", PyVal.num 1)]) = some "\x7b\"a\": 1\x7d" ∧
    ("a=1" : String) ≠ "\x7b\"a\": 1\x7d" := by
  exact ⟨rfl, rfl, rfl, by decide⟩

/-- C3 (amended): for every POST invocation with present, syntactically
valid JSON data, exactly one request is sent, to `<domain>/<endpoint>`,
with the decoded value passed as the HTTP client's `data=` body argument;
a decoded object is form-encoded on the wire and a decoded string is sent
verbatim (not JSON-encoded). -/
theorem c3_post_body (env : HttpEnv) (p : Payload) (s : String) (v : PyVal)
    (hm : p.method = "post") (hd : p.data = some s) (hl : loads s = some v) :
    (requestPhase env p).1 = [⟨true, domain ++ "/" ++ p.endpoint, some v⟩] ∧
    (∀ kvs, v = PyVal.dict kvs → wireBody v = formEncode kvs) ∧
    (∀ t, v = PyVal.str t → wireBody v = some t) := by
  refine ⟨?_, ?_, ?_⟩
  · simp [requestPhase, hm, hd, hl, urlOf]
  · rintro kvs rfl; rfl
  · rintro t rfl; rfl

/-- Witness for `c3_post_body` on the data string `{"a": 1}`. -/
theorem c3_witness :
    (requestPhase env200 ⟨"post", "todos", some "\x7b\"a\": 1\x7d", none⟩).1 =
      [⟨true, domain ++ "/" ++ "todos", some (PyVal.dict [("a", PyVal.num 1)])⟩] :=
  (c3_post_body env200 ⟨"post", "todos", some "\x7b\"a\": 1\x7d", none⟩ "\x7b\"a\": 1\x7d"
    (PyVal.dict [("a", PyVal.num 1)]) rfl rfl rfl).1

/-- C4, counterexample: the malformed invocation `put todos` is an
argument-parsing error (`SystemExit` code 2), but `main` catches the
`SystemExit`, prints the hint line, and the process terminates with exit
status 0 — not a non-zero status. -/
theorem c4_counterexample :
    parseArgs ["put", "todos"] = Except.error 2 ∧
    mainModel env200 ["put", "todos"] =
      ⟨[], ["ExitCode:2    (-h for more info)"], [], 0⟩ := by
  exact ⟨rfl, rfl⟩

/-- C4 (amended): every argument-parsing error (argparse `SystemExit` with
code 2) is caught by `main`, which prints the `ExitCode:2` hint line with
the `-h` pointer, sends no request, writes no file, and terminates the
process with exit status 0. -/
theorem c4_usage_error (env : HttpEnv) (argv : List String)
    (herr : parseArgs argv = Except.error 2) :
    mainModel env argv = ⟨[], ["ExitCode:2    (-h for more info)"], [], 0⟩ := by
  unfold mainModel
  simp only [herr]
  rfl

/-- Witness for `c4_usage_error` on the invocation `delete x`. -/
theorem c4_witness :
    parseArgs ["delete", "x"] = Except.error 2 ∧
    mainModel env200 ["delete", "x"] =
      ⟨[], ["ExitCode:2    (-h for more info)"], [], 0⟩ :=
  ⟨rfl, c4_usage_error env200 ["delete", "x"] rfl⟩

/-- C5: every POST invocation without the data field fails with the
`Must required valid json data` exception (printed by `__init__`'s handler)
regardless of endpoint, and no HTTP request is sent. -/
theorem c5_post_without_data (env : HttpEnv) (p : Payload)
    (hm : p.method = "post") (hd : p.data = none) :
    runAPITester env p = ⟨[], [errMsg PyErr.invalidInput], [], none⟩ ∧
    errMsg PyErr.invalidInput = "Must required valid json data" := by
  constructor
  · simp [runAPITester, requestPhase, hm, hd]
  · rfl

/-- Witness for `c5_post_without_data`. -/
theorem c5_witness :
    runAPITester env200 ⟨"post", "todos", none, none⟩ =
      ⟨[], [errMsg PyErr.invalidInput], [], none⟩ ∧
    errMsg PyErr.invalidInput = "Must required valid json data" :=
  c5_post_without_data env200 ⟨"post", "todos", none, none⟩ rfl rfl

/-- C6: for every 2xx response with a truthy output path, the text handed
to `Writer.save` is the wrapped text, which equals `[` ++ text ++ `]`
exactly when the raw text starts with `{` and ends with `}`, and the raw
text unchanged otherwise. -/
theorem c6_wrap_iff (path : String) (resp : Response)
    (hp : path ≠ "") (h2 : (natToChars resp.status_code).headD '0' = '2') :
    responsePhase (some path) resp =
      saveMerge (statusLine resp) (save path (wrapText resp.text)) ∧
    ((resp.text.toList.headD ' ' = '{' ∧ resp.text.toList.getLastD ' ' = '}') →
      wrapText resp.text = "[" ++ resp.text ++ "]") ∧
    (¬(resp.text.toList.headD ' ' = '{' ∧ resp.text.toList.getLastD ' ' = '}') →
      wrapText resp.text = resp.text) := by
  refine ⟨?_, ?_, ?_⟩
  · have hnr : ¬(400 ≤ resp.status_code ∧ resp.status_code < 600) := by
      rintro ⟨h4, h6⟩
      exact headD_ne_two_of_range h4 h6 h2
    unfold responsePhase
    rw [if_neg hnr, if_neg (fun hne => hne h2)]
    simp [hp]
  · intro h
    unfold wrapText
    rw [if_pos h]
  · intro hnot
    unfold wrapText
    rw [if_neg hnot]

/-- Witness for `c6_wrap_iff` on a 200 response with a bare-object body. -/
theorem c6_witness :
    ("o.json" : String) ≠ "" ∧
    responsePhase (some "o.json") ⟨200, "\x7b\"id\":1\x7d"⟩ =
      saveMerge (statusLine ⟨200, "\x7b\"id\":1\x7d"⟩) (save "o.json" (wrapText "\x7b\"id\":1\x7d")) :=
  ⟨by decide,
    (c6_wrap_iff "o.json" ⟨200, "\x7b\"id\":1\x7d"⟩ (by decide) (by decide)).1⟩

/-- C7: once the response text parses and the path contains a dot, an
extension other than `json`/`csv` prints the not-implemented notice and
writes nothing, while `json`/`csv` write exactly one file at the path
exactly as supplied. -/
theorem c7_extension_dispatch (path text : String) (recs : List Record) (fn ext : String)
    (hparse : parseRecords text = some recs) (hsplit : rsplitDot path = some (fn, ext)) :
    ((ext ≠ "json" ∧ ext ≠ "csv") →
        save path text = SaveOut.notice "not implemented for .\x7bext\x7d") ∧
    ((ext = "json" ∨ ext = "csv") → ∃ c, save path text = SaveOut.wrote (path, c)) := by
  obtain ⟨h1, h2, h3⟩ := save_dispatch path text recs fn ext hparse hsplit
  refine ⟨h1, fun h => ?_⟩
  rcases h with hj | hc
  · exact ⟨dfToJson (toDF recs), h2 hj⟩
  · exact ⟨dfToCsv (toDF recs), h3 hc⟩

/-- Witness for `c7_extension_dispatch` on an `.xml` path. -/
theorem c7_witness :
    save "o.xml" "[\x7b\"a\":1\x7d]" = SaveOut.notice "not implemented for .\x7bext\x7d" :=
  (c7_extension_dispatch "o.xml" "[\x7b\"a\":1\x7d]" [[("a", JVal.jnum 1)]] "o" "xml"
    rfl rfl).1 ⟨by decide, by decide⟩

/-- C8, counterexample: for the heterogeneous array `[{"a":"x"},{"b":"y"}]`
written to `o.json`, the written file contains the column-normalized
records with added `null` fields (string cells, whose object columns
pandas' conversions leave untouched), so reading it back does not yield
the original records. -/
theorem c8_counterexample :
    parseRecords "[\x7b\"a\":\"x\"\x7d,\x7b\"b\":\"y\"\x7d]" =
      some [[("a", JVal.jstr "x")], [("b", JVal.jstr "y")]] ∧
    save "o.json" "[\x7b\"a\":\"x\"\x7d,\x7b\"b\":\"y\"\x7d]" =
      SaveOut.wrote ("o.json",
        "[\n  \x7b\n    \"a\":\"x\",\n    \"b\":null\n  \x7d,\n  \x7b\n    \"a\":null,\n    \"b\":\"y\"\n  \x7d\n]") ∧
    parseRecords
        "[\n  \x7b\n    \"a\":\"x\",\n    \"b\":null\n  \x7d,\n  \x7b\n    \"a\":null,\n    \"b\":\"y\"\n  \x7d\n]" =
      some [[("a", JVal.jstr "x"), ("b", JVal.jnull)],
        [("a", JVal.jnull), ("b", JVal.jstr "y")]] ∧
    ([[("a", JVal.jstr "x"), ("b", JVal.jnull)], [("a", JVal.jnull), ("b", JVal.jstr "y")]] :
        List Record) ≠ [[("a", JVal.jstr "x")], [("b", JVal.jstr "y")]] := by
  exact ⟨rfl, rfl, rfl, by decide⟩

/-- C8 (amended): for every non-empty array of records in which each
record has the same non-empty duplicate-free key list, where no key is
date-like (pandas' default date conversion) and every key is printable
ASCII free of the encoder-escaped characters, and every cell is an
integer in int64 range (so no dtype coercion applies), writing to a
`.json` path and parsing the written file back yields the same sequence
of records. -/
theorem c8_roundtrip (text path fn : String) (recs : List Record) (ks : List String)
    (hparse : parseRecords text = some recs)
    (hsplit : rsplitDot path = some (fn, "json"))
    (_hne : recs ≠ []) (_hks : ks ≠ [])
    (hnd : ks.Nodup) (hall : ∀ r ∈ recs, r.map Prod.fst = ks)
    (_hdate : ∀ k ∈ ks, dateLikeCol k = false)
    (_hplain : ∀ k ∈ ks, plainKey k = true)
    (_hcells : ∀ r ∈ recs, ∀ kv ∈ r, i64NumCell kv.2 = true) :
    save path text = SaveOut.wrote (path, dfToJson (toDF recs)) ∧
    parseRecords (dfToJson (toDF recs)) = some recs := by
  constructor
  · exact (save_dispatch path text recs fn "json" hparse hsplit).2.1 rfl
  · unfold dfToJson
    rw [show dfRecords (toDF recs) = recs from dfRecords_toDF ks recs hnd hall]
    exact parseRecords_printTop recs

/-- Witness for `c8_roundtrip` on `[{"id":1}]`. -/
theorem c8_witness :
    save "o.json" "[\x7b\"id\":1\x7d]" =
      SaveOut.wrote ("o.json", dfToJson (toDF [[("id", JVal.jnum 1)]])) ∧
    parseRecords (dfToJson (toDF [[("id", JVal.jnum 1)]])) = some [[("id", JVal.jnum 1)]] :=
  c8_roundtrip "[\x7b\"id\":1\x7d]" "o.json" "o" [[("id", JVal.jnum 1)]] ["id"]
    rfl rfl (by decide) (by decide) (by decide) (by decide) (by decide) (by decide)
    (by decide)

/-- C9: a dot-free output path makes the two-element unpack of
`rsplit('.', 1)` raise before the extension dispatch: whenever the response
text parses (so the split is reached), `save` raises the unpack
`ValueError`, and in no case does it write a file or print the
not-implemented notice. -/
theorem c9_no_dot_path (path text : String) (hnodot : '.' ∉ path.toList) :
    (∀ recs, parseRecords text = some recs →
        save path text = SaveOut.err (PyErr.valueErrorSplit path)) ∧
    (∀ f, save path text ≠ SaveOut.wrote f) ∧
    (∀ m, save path text ≠ SaveOut.notice m) := by
  have hsplit : rsplitDot path = none := by
    unfold rsplitDot
    rw [rsplitAux_none path.toList hnodot]
    rfl
  refine ⟨?_, ?_, ?_⟩
  · intro recs hparse
    unfold save
    simp only [hparse, hsplit]
  · intro f hcontra
    unfold save at hcontra
    cases hp : parseRecords text with
    | none =>
      simp only [hp] at hcontra
      exact SaveOut.noConfusion hcontra
    | some recs =>
      simp only [hp, hsplit] at hcontra
      exact SaveOut.noConfusion hcontra
  · intro m hcontra
    unfold save at hcontra
    cases hp : parseRecords text with
    | none =>
      simp only [hp] at hcontra
      exact SaveOut.noConfusion hcontra
    | some recs =>
      simp only [hp, hsplit] at hcontra
      exact SaveOut.noConfusion hcontra

/-- Witness for `c9_no_dot_path` on the dot-free path `out`. -/
theorem c9_witness :
    save "out" "[\x7b\"a\":1\x7d]" = SaveOut.err (PyErr.valueErrorSplit "out") :=
  (c9_no_dot_path "out" "[\x7b\"a\":1\x7d]" (by decide)).1 [[("a", JVal.jnum 1)]] rfl

/-- C10: a present but syntactically invalid data string makes the decode
error escape `post` (the `except TypeError` clause does not catch it); it
is caught and printed by the caller, its message is not the InvalidInput
message, and no HTTP request is sent. -/
theorem c10_invalid_json_propagates (env : HttpEnv) (p : Payload) (s : String)
    (hm : p.method = "post") (hd : p.data = some s) (hl : loads s = none) :
    runAPITester env p = ⟨[], [errMsg (PyErr.jsonDecode s)], [], none⟩ ∧
    errMsg (PyErr.jsonDecode s) ≠ errMsg PyErr.invalidInput := by
  constructor
  · simp [runAPITester, requestPhase, hm, hd, hl]
  · intro hcontra
    have h1 : (errMsg (PyErr.jsonDecode s)).data.headD ' ' = 'J' := by
      show (("JSONDecodeError: " ++ s) : String).data.headD ' ' = 'J'
      rw [String.data_append]
      rfl
    rw [hcontra] at h1
    exact absurd h1 (by decide)

/-- Witness for `c10_invalid_json_propagates` on the data string `not json`. -/
theorem c10_witness :
    runAPITester env200 ⟨"post", "todos", some "not json", none⟩ =
      ⟨[], [errMsg (PyErr.jsonDecode "not json")], [], none⟩ ∧
    errMsg (PyErr.jsonDecode "not json") ≠ errMsg PyErr.invalidInput :=
  c10_invalid_json_propagates env200 ⟨"post", "todos", some "not json", none⟩
    "not json" rfl rfl rfl

end Restful
